import Mathlib

/-!
Shallow embedding of two Audacity source files:
  src/commands/SetTrackInfoCommand.cpp  (the SetTrackInfoCommand class)
  src/MemoryX.h                         (Maybe<X> and IteratorRange<Iterator>)

Tracks are modelled as records of the properties the command touches, plus
two capability flags mirroring the dynamic_cast tests to WaveTrack and
PlayableTrack.  Floating point values (pan, gain) are carried as rationals:
the command only stores and forwards them, it performs no arithmetic.
The long mTrackIndex is an Int.  Each invocation of a track/panel setter is
additionally recorded in a trace so that claims about which setters run are
directly statable.
-/

set_option autoImplicit false

/-- A track as seen by SetTrackInfoCommand: the dynamic_cast capabilities
and the mutable properties reached through the setters. -/
structure Track where
  isWave : Bool
  isPlayable : Bool
  name : String
  pan : Rat
  gain : Rat
  selected : Bool
  solo : Bool
  mute : Bool
  deriving DecidableEq

/-- The project state the command reaches through CommandContext:
the track list and the track panel focus (held as a track index). -/
structure Project where
  tracks : List Track
  focusedTrack : Option Int
  deriving DecidableEq

/-- One setter invocation made by Apply, recorded with its argument. -/
inductive Call where
  | setName (v : String)
  | setPan (v : Rat)
  | setGain (v : Rat)
  | setSelected (v : Bool)
  | setFocusedTrack (idx : Int)
  | setSolo (v : Bool)
  | setMute (v : Bool)
  deriving DecidableEq

/-- The field set of SetTrackInfoCommand: the eight value fields and the
seven has-value flags. -/
structure SetTrackInfoCommand where
  mTrackIndex : Int
  mTrackName : String
  mPan : Rat
  mGain : Rat
  bSelected : Bool
  bFocused : Bool
  bSolo : Bool
  bMute : Bool
  bHasTrackName : Bool
  bHasPan : Bool
  bHasGain : Bool
  bHasSelected : Bool
  bHasFocused : Bool
  bHasSolo : Bool
  bHasMute : Bool
  deriving DecidableEq

/-- Outcome of SetTrackInfoCommand::Apply: the returned Bool, the messages
passed to context.Error, the project state after the call, and the trace of
setter invocations. -/
structure ApplyResult where
  success : Bool
  errors : List String
  project : Project
  calls : List Call
  deriving DecidableEq

namespace SetTrackInfoCommand

/-- The while loop of Apply: `while (t && i != mTrackIndex) { t = iter.Next(); ++i; }`.
The argument list is the iterator suffix whose head is the current track t
(empty list = null).  Returns the final counter i and the final t. -/
def scanLoop (ts : List Track) (i : Int) (k : Int) : Int × Option Track :=
  match ts with
  | [] => (i, none)
  | t :: rest => if i ≠ k then scanLoop rest (i + 1) k else (i, some t)

/-- The straight-line field-application block of Apply (lines 98-117):
wt/pt are the two dynamic_casts on the located track, each present field is
conditionally written, and the setter trace is recorded in source order. -/
def applyFields (cmd : SetTrackInfoCommand) (i : Int) (t : Track)
    (focus : Option Int) : Track × Option Int × List Call :=
  let wt := t.isWave
  let pt := t.isPlayable
  let t1 := if cmd.bHasTrackName then { t with name := cmd.mTrackName } else t
  let t2 := if wt && cmd.bHasPan then { t1 with pan := cmd.mPan } else t1
  let t3 := if wt && cmd.bHasGain then { t2 with gain := cmd.mGain } else t2
  let t4 := if cmd.bHasSelected then { t3 with selected := cmd.bSelected } else t3
  let focus2 := if cmd.bHasFocused then some i else focus
  let t5 := if pt && cmd.bHasSolo then { t4 with solo := cmd.bSolo } else t4
  let t6 := if pt && cmd.bHasMute then { t5 with mute := cmd.bMute } else t5
  let calls :=
    (if cmd.bHasTrackName then [Call.setName cmd.mTrackName] else []) ++
    (if wt && cmd.bHasPan then [Call.setPan cmd.mPan] else []) ++
    (if wt && cmd.bHasGain then [Call.setGain cmd.mGain] else []) ++
    (if cmd.bHasSelected then [Call.setSelected cmd.bSelected] else []) ++
    (if cmd.bHasFocused then [Call.setFocusedTrack i] else []) ++
    (if pt && cmd.bHasSolo then [Call.setSolo cmd.bSolo] else []) ++
    (if pt && cmd.bHasMute then [Call.setMute cmd.bMute] else [])
  (t6, focus2, calls)

/-- SetTrackInfoCommand::Apply: scan for the mTrackIndex-th track; on
`i != mTrackIndex || !t` report "TrackIndex was invalid." and return false;
otherwise apply the present fields to the located track and return true. -/
def Apply (cmd : SetTrackInfoCommand) (proj : Project) : ApplyResult :=
  match scanLoop proj.tracks 0 cmd.mTrackIndex with
  | (_, none) =>
      { success := false, errors := ["TrackIndex was invalid."],
        project := proj, calls := [] }
  | (i, some t) =>
      if i ≠ cmd.mTrackIndex then
        { success := false, errors := ["TrackIndex was invalid."],
          project := proj, calls := [] }
      else
        let r := applyFields cmd i t proj.focusedTrack
        { success := true, errors := [],
          project := { tracks := proj.tracks.set i.toNat r.1,
                       focusedTrack := r.2.1 },
          calls := r.2.2 }

/-- The uninitialized bytes the default constructor leaves in the seven
has-value flags: the constructor body assigns none of them. -/
structure PresenceJunk where
  hasTrackName : Bool
  hasPan : Bool
  hasGain : Bool
  hasSelected : Bool
  hasFocused : Bool
  hasSolo : Bool
  hasMute : Bool
  deriving DecidableEq

/-- The default constructor SetTrackInfoCommand::SetTrackInfoCommand():
assigns the eight value fields and leaves the seven has-value flags at
whatever indeterminate values the storage held. -/
def ctorDefault (junk : PresenceJunk) : SetTrackInfoCommand :=
  { mTrackIndex := 0
    mTrackName := "unnamed"
    mPan := 0
    mGain := 1
    bSelected := false
    bFocused := false
    bSolo := false
    bMute := false
    bHasTrackName := junk.hasTrackName
    bHasPan := junk.hasPan
    bHasGain := junk.hasGain
    bHasSelected := junk.hasSelected
    bHasFocused := junk.hasFocused
    bHasSolo := junk.hasSolo
    bHasMute := junk.hasMute }

/-- A value passed to ShuttleParams::Define: the default or a range bound. -/
inductive ParamVal where
  | intV (v : Int)
  | ratV (v : Rat)
  | strV (v : String)
  | boolV (v : Bool)
  deriving DecidableEq

/-- One registration made in DefineParams: the automation name, whether it
went through S.Optional, the default and the optional range bounds. -/
structure ParamDef where
  pname : String
  optional : Bool
  dflt : ParamVal
  lo : Option ParamVal
  hi : Option ParamVal
  deriving DecidableEq

/-- The registrations of SetTrackInfoCommand::DefineParams, in source
order (lines 42-49). -/
def defineParams : List ParamDef :=
  [ { pname := "TrackIndex", optional := false, dflt := ParamVal.intV 0,
      lo := some (ParamVal.intV 0), hi := some (ParamVal.intV 100) },
    { pname := "Name", optional := true, dflt := ParamVal.strV "Unnamed",
      lo := none, hi := none },
    { pname := "Pan", optional := true, dflt := ParamVal.ratV 0,
      lo := some (ParamVal.ratV (-1)), hi := some (ParamVal.ratV 1) },
    { pname := "Gain", optional := true, dflt := ParamVal.ratV 1,
      lo := some (ParamVal.ratV 0), hi := some (ParamVal.ratV 10) },
    { pname := "Selected", optional := true, dflt := ParamVal.boolV false,
      lo := none, hi := none },
    { pname := "Focuseed", optional := true, dflt := ParamVal.boolV false,
      lo := none, hi := none },
    { pname := "Solo", optional := true, dflt := ParamVal.boolV false,
      lo := none, hi := none },
    { pname := "Mute", optional := true, dflt := ParamVal.boolV false,
      lo := none, hi := none } ]

/-- The sequence of automation names DefineParams registers. -/
def defineParamNames : List String := defineParams.map ParamDef.pname

end SetTrackInfoCommand

/-- Maybe<X> of MemoryX.h, abstracted to its pointer state: pp is null
(none) or points at a constructed object in the in-place storage (some). -/
structure Maybe (α : Type) where
  pp : Option α
  deriving DecidableEq

namespace Maybe

variable {α : Type}

/-- The default constructor: pp starts as nullptr. -/
def mkNull : Maybe α := { pp := none }

/-- X* get() const: the raw pointer, null when empty. -/
def get (m : Maybe α) : Option α := m.pp

/-- void reset(): `if (pp) pp->~X(), pp = nullptr;`. -/
def reset (m : Maybe α) : Maybe α :=
  match m.pp with
  | some _ => { pp := none }
  | none => m

/-- explicit operator bool(): `pp != nullptr`. -/
def toBool (m : Maybe α) : Bool := m.pp.isSome

/-- create(args...): reset, then placement-construct the new value. -/
def create (m : Maybe α) (x : α) : Maybe α :=
  let m1 := m.reset
  { m1 with pp := some x }

/-- The destructor ~Maybe(): its whole body is reset(). -/
def dtor (m : Maybe α) : Maybe α := m.reset

end Maybe

namespace IteratorRange

variable {α : Type} [DecidableEq α]

/-- std::find(begin, end, t) over the range, with an iterator represented
as its offset from begin: the offset of the first element equal to t, or
the length (= end) when there is none. -/
def findPos (xs : List α) (t : α) : Nat :=
  match xs with
  | [] => 0
  | x :: rest => if x = t then 0 else findPos rest t + 1

/-- IteratorRange::find(t). -/
def find (xs : List α) (t : α) : Nat := findPos xs t

/-- IteratorRange::index(t): -1 when find(t) == end(), otherwise
std::distance(begin(), find(t)). -/
def index (xs : List α) (t : α) : Int :=
  if find xs t = xs.length then -1 else (find xs t : Int)

/-- IteratorRange::contains(t): `end() != find(t)`. -/
def contains (xs : List α) (t : α) : Bool :=
  decide (xs.length ≠ find xs t)

end IteratorRange

/-- A wave-capable (hence also playable) track, for concrete checks. -/
def waveTrack0 : Track :=
  { isWave := true, isPlayable := true, name := "w0", pan := 0, gain := 1,
    selected := false, solo := false, mute := false }

/-- A track with neither capability (e.g. a label track), for concrete
checks. -/
def labelTrack0 : Track :=
  { isWave := false, isPlayable := false, name := "l0", pan := 0, gain := 1,
    selected := false, solo := false, mute := false }

/-- A two-track project, for concrete checks. -/
def sampleProject : Project :=
  { tracks := [waveTrack0, labelTrack0], focusedTrack := none }

/-- A command aimed at index k with every presence flag set; pan and gain
are outside the declared ranges. -/
def cmdAll (k : Int) : SetTrackInfoCommand :=
  { mTrackIndex := k, mTrackName := "renamed", mPan := 5, mGain := 20,
    bSelected := true, bFocused := true, bSolo := true, bMute := true,
    bHasTrackName := true, bHasPan := true, bHasGain := true,
    bHasSelected := true, bHasFocused := true, bHasSolo := true,
    bHasMute := true }

/-- A command aimed at index k with every presence flag clear. -/
def cmdNone (k : Int) : SetTrackInfoCommand :=
  { mTrackIndex := k, mTrackName := "renamed", mPan := 5, mGain := 20,
    bSelected := true, bFocused := true, bSolo := true, bMute := true,
    bHasTrackName := false, bHasPan := false, bHasGain := false,
    bHasSelected := false, bHasFocused := false, bHasSolo := false,
    bHasMute := false }

namespace IteratorRange

variable {α : Type} [DecidableEq α]

theorem findPos_le_length (xs : List α) (t : α) : findPos xs t ≤ xs.length := by
  induction xs with
  | nil => exact Nat.le_refl 0
  | cons x rest ih =>
    rw [findPos]
    split_ifs with hx
    · exact Nat.zero_le _
    · simpa using Nat.succ_le_succ ih

theorem findPos_lt_length_iff (xs : List α) (t : α) :
    findPos xs t < xs.length ↔ t ∈ xs := by
  induction xs with
  | nil => simp [findPos]
  | cons x rest ih =>
    rw [findPos]
    split_ifs with hx
    · simp [hx]
    · simp only [List.length_cons, List.mem_cons, Nat.add_lt_add_iff_right, ih]
      constructor
      · exact Or.inr
      · rintro (h | h)
        · exact absurd h.symm hx
        · exact h

theorem get?_findPos (xs : List α) (t : α) (h : t ∈ xs) :
    xs.get? (findPos xs t) = some t := by
  induction xs with
  | nil => simp at h
  | cons x rest ih =>
    rw [findPos]
    split_ifs with hx
    · simp [hx]
    · rw [List.get?_cons_succ]
      rcases List.mem_cons.mp h with h | h
      · exact absurd h.symm hx
      · exact ih h

theorem get?_lt_findPos (xs : List α) (t : α) (j : Nat) (h : j < findPos xs t) :
    xs.get? j ≠ some t := by
  induction xs generalizing j with
  | nil => simp [findPos] at h
  | cons x rest ih =>
    rw [findPos] at h
    split_ifs at h with hx
    · omega
    · match j with
      | 0 =>
        simp only [List.get?_cons_zero, ne_eq, Option.some.injEq]
        exact hx
      | j + 1 =>
        rw [List.get?_cons_succ]
        exact ih j (by omega)

end IteratorRange

namespace SetTrackInfoCommand

theorem scanLoop_miss (ts : List Track) (i k : Int)
    (h : k < i ∨ (ts.length : Int) ≤ k - i) :
    scanLoop ts i k = (i + ts.length, none) := by
  induction ts generalizing i with
  | nil => simp [scanLoop]
  | cons t rest ih =>
    have hik : i ≠ k := by
      rcases h with h | h
      · omega
      · simp only [List.length_cons] at h
        push_cast at h
        omega
    rw [scanLoop, if_pos hik, ih]
    · simp only [List.length_cons, Prod.mk.injEq]
      push_cast
      exact ⟨by omega, trivial⟩
    · rcases h with h | h
      · left; omega
      · right
        simp only [List.length_cons] at h
        push_cast at h ⊢
        omega

theorem scanLoop_found (ts : List Track) (i k : Int)
    (h0 : i ≤ k) (h1 : (k - i).toNat < ts.length) :
    scanLoop ts i k = (k, ts.get? (k - i).toNat) := by
  induction ts generalizing i with
  | nil => simp at h1
  | cons t rest ih =>
    by_cases hik : i = k
    · subst hik
      simp [scanLoop]
    · rw [scanLoop, if_pos hik, ih (i + 1) (by omega)]
      · have hpos : (k - i).toNat = (k - (i + 1)).toNat + 1 := by omega
        rw [hpos, List.get?_cons_succ]
      · simp only [List.length_cons] at h1
        omega

theorem Apply_miss (cmd : SetTrackInfoCommand) (proj : Project)
    (h : ¬ (0 ≤ cmd.mTrackIndex ∧ cmd.mTrackIndex < (proj.tracks.length : Int))) :
    Apply cmd proj =
      { success := false, errors := ["TrackIndex was invalid."],
        project := proj, calls := [] } := by
  have hs : scanLoop proj.tracks 0 cmd.mTrackIndex =
      ((proj.tracks.length : Int), none) := by
    have := scanLoop_miss proj.tracks 0 cmd.mTrackIndex (by omega)
    simpa using this
  simp only [Apply, hs]

theorem Apply_found (cmd : SetTrackInfoCommand) (proj : Project) (t : Track)
    (h0 : 0 ≤ cmd.mTrackIndex)
    (h1 : proj.tracks.get? cmd.mTrackIndex.toNat = some t) :
    Apply cmd proj =
      { success := true, errors := [],
        project :=
          { tracks := proj.tracks.set cmd.mTrackIndex.toNat
              (applyFields cmd cmd.mTrackIndex t proj.focusedTrack).1,
            focusedTrack :=
              (applyFields cmd cmd.mTrackIndex t proj.focusedTrack).2.1 },
        calls := (applyFields cmd cmd.mTrackIndex t proj.focusedTrack).2.2 } := by
  have hlen : cmd.mTrackIndex.toNat < proj.tracks.length := by
    by_contra hc
    rw [List.get?_eq_none.mpr (by omega)] at h1
    exact Option.noConfusion h1
  have hs : scanLoop proj.tracks 0 cmd.mTrackIndex = (cmd.mTrackIndex, some t) := by
    rw [scanLoop_found proj.tracks 0 cmd.mTrackIndex (by omega) (by simpa using hlen)]
    simp only [sub_zero]
    rw [h1]
  simp [Apply, hs]

theorem applyFields_track (cmd : SetTrackInfoCommand) (i : Int) (t : Track)
    (f : Option Int) :
    (applyFields cmd i t f).1 =
      { isWave := t.isWave, isPlayable := t.isPlayable,
        name := if cmd.bHasTrackName then cmd.mTrackName else t.name,
        pan := if t.isWave && cmd.bHasPan then cmd.mPan else t.pan,
        gain := if t.isWave && cmd.bHasGain then cmd.mGain else t.gain,
        selected := if cmd.bHasSelected then cmd.bSelected else t.selected,
        solo := if t.isPlayable && cmd.bHasSolo then cmd.bSolo else t.solo,
        mute := if t.isPlayable && cmd.bHasMute then cmd.bMute else t.mute } := by
  simp only [applyFields]
  split_ifs <;> rfl

theorem applyFields_focus (cmd : SetTrackInfoCommand) (i : Int) (t : Track)
    (f : Option Int) :
    (applyFields cmd i t f).2.1 = if cmd.bHasFocused then some i else f := rfl

theorem applyFields_calls (cmd : SetTrackInfoCommand) (i : Int) (t : Track)
    (f : Option Int) :
    (applyFields cmd i t f).2.2 =
      (if cmd.bHasTrackName then [Call.setName cmd.mTrackName] else []) ++
      (if t.isWave && cmd.bHasPan then [Call.setPan cmd.mPan] else []) ++
      (if t.isWave && cmd.bHasGain then [Call.setGain cmd.mGain] else []) ++
      (if cmd.bHasSelected then [Call.setSelected cmd.bSelected] else []) ++
      (if cmd.bHasFocused then [Call.setFocusedTrack i] else []) ++
      (if t.isPlayable && cmd.bHasSolo then [Call.setSolo cmd.bSolo] else []) ++
      (if t.isPlayable && cmd.bHasMute then [Call.setMute cmd.bMute] else []) := rfl

end SetTrackInfoCommand


open SetTrackInfoCommand

theorem mem_ite_singleton {β : Type} (c : Prop) [Decidable c] (x y : β) :
    (x ∈ if c then [y] else []) ↔ c ∧ x = y := by
  split_ifs with hc <;> simp [hc]

/-- Claim C1: Apply reports "TrackIndex was invalid." and returns false
exactly when mTrackIndex does not designate an existing track of the list
(it is negative or at least the track count); whenever a track exists at
that index, Apply returns true. -/
theorem apply_invalid_index_iff (cmd : SetTrackInfoCommand) (proj : Project) :
    (((cmd.Apply proj).success = false ∧
        (cmd.Apply proj).errors = ["TrackIndex was invalid."]) ↔
      ¬ (0 ≤ cmd.mTrackIndex ∧ cmd.mTrackIndex < (proj.tracks.length : Int))) ∧
    ((0 ≤ cmd.mTrackIndex ∧ cmd.mTrackIndex < (proj.tracks.length : Int)) →
      (cmd.Apply proj).success = true) := by
  by_cases h : 0 ≤ cmd.mTrackIndex ∧ cmd.mTrackIndex < (proj.tracks.length : Int)
  · have hlt : cmd.mTrackIndex.toNat < proj.tracks.length := by omega
    rw [Apply_found cmd proj _ h.1 (List.get?_eq_get hlt)]
    refine ⟨?_, fun _ => rfl⟩
    simp [h.1, h.2]
  · rw [Apply_miss cmd proj h]
    exact ⟨by simp [h], fun hc => absurd hc h⟩

/-- Concrete check of the claim-C1 theorem: index 5 fails on a two-track
project, index 0 succeeds. -/
theorem apply_invalid_index_iff_witness :
    ((cmdAll 5).Apply sampleProject).success = false ∧
    ((cmdAll 0).Apply sampleProject).success = true :=
  ⟨((apply_invalid_index_iff (cmdAll 5) sampleProject).1.mpr (by decide)).1,
    (apply_invalid_index_iff (cmdAll 0) sampleProject).2 (by decide)⟩

/-- Claim C2: for a track at the configured index, the setter invocations
of Apply are exactly the present fields filtered by capability: SetPan and
SetGain only when the track is wave-capable, SetSolo and SetMute only when
it is playable, SetName, SetSelected and SetFocusedTrack for any track. -/
theorem apply_calls_match_capabilities (cmd : SetTrackInfoCommand)
    (proj : Project) (t : Track)
    (h0 : 0 ≤ cmd.mTrackIndex)
    (h1 : proj.tracks.get? cmd.mTrackIndex.toNat = some t) :
    (cmd.Apply proj).calls =
      (if cmd.bHasTrackName then [Call.setName cmd.mTrackName] else []) ++
      (if t.isWave && cmd.bHasPan then [Call.setPan cmd.mPan] else []) ++
      (if t.isWave && cmd.bHasGain then [Call.setGain cmd.mGain] else []) ++
      (if cmd.bHasSelected then [Call.setSelected cmd.bSelected] else []) ++
      (if cmd.bHasFocused then [Call.setFocusedTrack cmd.mTrackIndex] else []) ++
      (if t.isPlayable && cmd.bHasSolo then [Call.setSolo cmd.bSolo] else []) ++
      (if t.isPlayable && cmd.bHasMute then [Call.setMute cmd.bMute] else []) := by
  rw [Apply_found cmd proj t h0 h1]
  exact applyFields_calls cmd cmd.mTrackIndex t proj.focusedTrack

/-- Concrete check of the claim-C2 theorem: on the capability-free track at
index 1, a command with all fields present calls only SetName, SetSelected
and SetFocusedTrack. -/
theorem apply_calls_match_capabilities_witness :
    ((cmdAll 1).Apply sampleProject).calls =
      [Call.setName "renamed", Call.setSelected true, Call.setFocusedTrack 1] := by
  rw [apply_calls_match_capabilities (cmdAll 1) sampleProject labelTrack0
    (by decide) rfl]
  decide

/-- Claim C3: when the index is invalid, Apply makes no setter call and
leaves the whole project state unchanged, returning failure. -/
theorem apply_invalid_index_no_mutation (cmd : SetTrackInfoCommand)
    (proj : Project)
    (h : ¬ (0 ≤ cmd.mTrackIndex ∧ cmd.mTrackIndex < (proj.tracks.length : Int))) :
    (cmd.Apply proj).success = false ∧ (cmd.Apply proj).calls = [] ∧
    (cmd.Apply proj).project = proj := by
  rw [Apply_miss cmd proj h]
  exact ⟨rfl, rfl, rfl⟩

/-- Concrete check of the claim-C3 theorem at index 5 of a two-track
project. -/
theorem apply_invalid_index_no_mutation_witness :
    ((cmdAll 5).Apply sampleProject).success = false ∧
    ((cmdAll 5).Apply sampleProject).calls = [] ∧
    ((cmdAll 5).Apply sampleProject).project = sampleProject :=
  apply_invalid_index_no_mutation (cmdAll 5) sampleProject (by decide)

/-- Claim C5: the locating loop of Apply is a linear scan counting from the
first track; for every list and every k with 0 ≤ k < length it stops with
counter k at exactly the k-th (0-based) track. -/
theorem scanLoop_selects_kth (proj : Project) (k : Int)
    (h0 : 0 ≤ k) (h1 : k < (proj.tracks.length : Int)) :
    scanLoop proj.tracks 0 k = (k, proj.tracks.get? k.toNat) ∧
    (proj.tracks.get? k.toNat).isSome = true := by
  have hlt : k.toNat < proj.tracks.length := by omega
  constructor
  · rw [scanLoop_found proj.tracks 0 k h0 (by simpa using hlt)]
    simp
  · rw [List.get?_eq_get hlt]
    rfl

/-- Concrete check of the claim-C5 theorem: index 1 of the two-track
project selects the second track. -/
theorem scanLoop_selects_kth_witness :
    scanLoop sampleProject.tracks 0 1 = (1, some labelTrack0) :=
  (scanLoop_selects_kth sampleProject 1 (by decide) (by decide)).1

/-- Claim C4: for a track located by a valid index, every field whose
presence flag is false is left alone: its setter is never invoked and the
corresponding property (or the panel focus) keeps its prior value. -/
theorem apply_absent_fields_unchanged (cmd : SetTrackInfoCommand)
    (proj : Project) (t : Track)
    (h0 : 0 ≤ cmd.mTrackIndex)
    (h1 : proj.tracks.get? cmd.mTrackIndex.toNat = some t) :
    ∃ t2, (cmd.Apply proj).project.tracks.get? cmd.mTrackIndex.toNat = some t2 ∧
      (cmd.bHasTrackName = false →
        (∀ v, Call.setName v ∉ (cmd.Apply proj).calls) ∧ t2.name = t.name) ∧
      (cmd.bHasPan = false →
        (∀ v, Call.setPan v ∉ (cmd.Apply proj).calls) ∧ t2.pan = t.pan) ∧
      (cmd.bHasGain = false →
        (∀ v, Call.setGain v ∉ (cmd.Apply proj).calls) ∧ t2.gain = t.gain) ∧
      (cmd.bHasSelected = false →
        (∀ v, Call.setSelected v ∉ (cmd.Apply proj).calls) ∧
        t2.selected = t.selected) ∧
      (cmd.bHasFocused = false →
        (∀ v, Call.setFocusedTrack v ∉ (cmd.Apply proj).calls) ∧
        (cmd.Apply proj).project.focusedTrack = proj.focusedTrack) ∧
      (cmd.bHasSolo = false →
        (∀ v, Call.setSolo v ∉ (cmd.Apply proj).calls) ∧ t2.solo = t.solo) ∧
      (cmd.bHasMute = false →
        (∀ v, Call.setMute v ∉ (cmd.Apply proj).calls) ∧ t2.mute = t.mute) := by
  have hlen : cmd.mTrackIndex.toNat < proj.tracks.length := by
    by_contra hc
    rw [List.get?_eq_none.mpr (by omega)] at h1
    exact Option.noConfusion h1
  rw [Apply_found cmd proj t h0 h1]
  refine ⟨(applyFields cmd cmd.mTrackIndex t proj.focusedTrack).1,
    List.get?_set_eq_of_lt _ hlen, ?_, ?_, ?_, ?_, ?_, ?_, ?_⟩
  · intro hflag
    constructor
    · intro v
      rw [applyFields_calls]
      simp [mem_ite_singleton, hflag]
    · rw [applyFields_track]
      simp [hflag]
  · intro hflag
    constructor
    · intro v
      rw [applyFields_calls]
      simp [mem_ite_singleton, hflag]
    · rw [applyFields_track]
      simp [hflag]
  · intro hflag
    constructor
    · intro v
      rw [applyFields_calls]
      simp [mem_ite_singleton, hflag]
    · rw [applyFields_track]
      simp [hflag]
  · intro hflag
    constructor
    · intro v
      rw [applyFields_calls]
      simp [mem_ite_singleton, hflag]
    · rw [applyFields_track]
      simp [hflag]
  · intro hflag
    constructor
    · intro v
      rw [applyFields_calls]
      simp [mem_ite_singleton, hflag]
    · rw [applyFields_focus]
      simp [hflag]
  · intro hflag
    constructor
    · intro v
      rw [applyFields_calls]
      simp [mem_ite_singleton, hflag]
    · rw [applyFields_track]
      simp [hflag]
  · intro hflag
    constructor
    · intro v
      rw [applyFields_calls]
      simp [mem_ite_singleton, hflag]
    · rw [applyFields_track]
      simp [hflag]

/-- Concrete check of the claim-C4 theorem: a command with every presence
flag clear leaves the wave track at index 0 untouched. -/
theorem apply_absent_fields_unchanged_witness :
    ∃ t2, ((cmdNone 0).Apply sampleProject).project.tracks.get?
        (cmdNone 0).mTrackIndex.toNat = some t2 ∧
      ((cmdNone 0).bHasTrackName = false →
        (∀ v, Call.setName v ∉ ((cmdNone 0).Apply sampleProject).calls) ∧
        t2.name = waveTrack0.name) ∧
      ((cmdNone 0).bHasPan = false →
        (∀ v, Call.setPan v ∉ ((cmdNone 0).Apply sampleProject).calls) ∧
        t2.pan = waveTrack0.pan) ∧
      ((cmdNone 0).bHasGain = false →
        (∀ v, Call.setGain v ∉ ((cmdNone 0).Apply sampleProject).calls) ∧
        t2.gain = waveTrack0.gain) ∧
      ((cmdNone 0).bHasSelected = false →
        (∀ v, Call.setSelected v ∉ ((cmdNone 0).Apply sampleProject).calls) ∧
        t2.selected = waveTrack0.selected) ∧
      ((cmdNone 0).bHasFocused = false →
        (∀ v, Call.setFocusedTrack v ∉ ((cmdNone 0).Apply sampleProject).calls) ∧
        ((cmdNone 0).Apply sampleProject).project.focusedTrack =
          sampleProject.focusedTrack) ∧
      ((cmdNone 0).bHasSolo = false →
        (∀ v, Call.setSolo v ∉ ((cmdNone 0).Apply sampleProject).calls) ∧
        t2.solo = waveTrack0.solo) ∧
      ((cmdNone 0).bHasMute = false →
        (∀ v, Call.setMute v ∉ ((cmdNone 0).Apply sampleProject).calls) ∧
        t2.mute = waveTrack0.mute) :=
  apply_absent_fields_unchanged (cmdNone 0) sampleProject waveTrack0
    (by decide) rfl

/-- Claim C6 counterexample: DefineParams registers the focused-flag
parameter under the misspelled name "Focuseed", so the registered name
list is not the claimed one. -/
theorem defineParamNames_focuseed_typo :
    defineParamNames =
      ["TrackIndex", "Name", "Pan", "Gain", "Selected", "Focuseed",
        "Solo", "Mute"] ∧
    defineParamNames ≠
      ["TrackIndex", "Name", "Pan", "Gain", "Selected", "Focused",
        "Solo", "Mute"] := by
  constructor
  · rfl
  · decide

/-- Claim C7: DefineParams declares range 0..100 for TrackIndex, -1..1 for
Pan and 0..10 for Gain, while Apply forwards whatever values mPan and mGain
hold to SetPan and SetGain unchanged, with no range check. -/
theorem defineParams_ranges_no_clamping (cmd : SetTrackInfoCommand)
    (proj : Project) (t : Track)
    (h0 : 0 ≤ cmd.mTrackIndex)
    (h1 : proj.tracks.get? cmd.mTrackIndex.toNat = some t)
    (hw : t.isWave = true) (hp : cmd.bHasPan = true)
    (hg : cmd.bHasGain = true) :
    ((defineParams.map fun p => (p.pname, p.lo, p.hi)).get? 0 =
      some ("TrackIndex", some (ParamVal.intV 0), some (ParamVal.intV 100))) ∧
    ((defineParams.map fun p => (p.pname, p.lo, p.hi)).get? 2 =
      some ("Pan", some (ParamVal.ratV (-1)), some (ParamVal.ratV 1))) ∧
    ((defineParams.map fun p => (p.pname, p.lo, p.hi)).get? 3 =
      some ("Gain", some (ParamVal.ratV 0), some (ParamVal.ratV 10))) ∧
    ∃ t2, (cmd.Apply proj).project.tracks.get? cmd.mTrackIndex.toNat = some t2 ∧
      t2.pan = cmd.mPan ∧ t2.gain = cmd.mGain ∧
      Call.setPan cmd.mPan ∈ (cmd.Apply proj).calls ∧
      Call.setGain cmd.mGain ∈ (cmd.Apply proj).calls := by
  refine ⟨rfl, rfl, rfl, ?_⟩
  have hlen : cmd.mTrackIndex.toNat < proj.tracks.length := by
    by_contra hc
    rw [List.get?_eq_none.mpr (by omega)] at h1
    exact Option.noConfusion h1
  rw [Apply_found cmd proj t h0 h1]
  refine ⟨(applyFields cmd cmd.mTrackIndex t proj.focusedTrack).1,
    List.get?_set_eq_of_lt _ hlen, ?_, ?_, ?_, ?_⟩
  · rw [applyFields_track]
    simp [hw, hp]
  · rw [applyFields_track]
    simp [hw, hg]
  · rw [applyFields_calls]
    simp [mem_ite_singleton, hw, hp]
  · rw [applyFields_calls]
    simp [mem_ite_singleton, hw, hg]

/-- Concrete check of the claim-C7 theorem: pan 5 and gain 20, both outside
the declared ranges, are forwarded verbatim to the wave track at index 0. -/
theorem defineParams_ranges_no_clamping_witness :
    ∃ t2, ((cmdAll 0).Apply sampleProject).project.tracks.get?
        (cmdAll 0).mTrackIndex.toNat = some t2 ∧
      t2.pan = (cmdAll 0).mPan ∧ t2.gain = (cmdAll 0).mGain ∧
      Call.setPan (cmdAll 0).mPan ∈ ((cmdAll 0).Apply sampleProject).calls ∧
      Call.setGain (cmdAll 0).mGain ∈ ((cmdAll 0).Apply sampleProject).calls :=
  (defineParams_ranges_no_clamping (cmdAll 0) sampleProject waveTrack0
    (by decide) rfl rfl rfl rfl).2.2.2

/-- Claim C8: the default constructor assigns the eight value fields and
none of the seven presence flags, which pass through whatever the storage
held; consequently two fresh commands differing only in that indeterminate
state make different setter calls. -/
theorem ctorDefault_presence_flags_indeterminate :
    (∀ j : PresenceJunk,
      (ctorDefault j).mTrackIndex = 0 ∧ (ctorDefault j).mTrackName = "unnamed" ∧
      (ctorDefault j).mPan = 0 ∧ (ctorDefault j).mGain = 1 ∧
      (ctorDefault j).bSelected = false ∧ (ctorDefault j).bFocused = false ∧
      (ctorDefault j).bSolo = false ∧ (ctorDefault j).bMute = false ∧
      (ctorDefault j).bHasTrackName = j.hasTrackName ∧
      (ctorDefault j).bHasPan = j.hasPan ∧
      (ctorDefault j).bHasGain = j.hasGain ∧
      (ctorDefault j).bHasSelected = j.hasSelected ∧
      (ctorDefault j).bHasFocused = j.hasFocused ∧
      (ctorDefault j).bHasSolo = j.hasSolo ∧
      (ctorDefault j).bHasMute = j.hasMute) ∧
    ∃ j1 j2 : PresenceJunk, ∃ proj : Project,
      ((ctorDefault j1).Apply proj).calls ≠ ((ctorDefault j2).Apply proj).calls := by
  refine ⟨fun j => ⟨rfl, rfl, rfl, rfl, rfl, rfl, rfl, rfl, rfl, rfl, rfl,
    rfl, rfl, rfl, rfl⟩, ?_⟩
  refine ⟨⟨false, false, false, false, false, false, false⟩,
    ⟨true, false, false, false, false, false, false⟩,
    { tracks := [waveTrack0], focusedTrack := none }, ?_⟩
  decide

/-- Claim C9: contains, find and index agree on membership: contains holds
iff find differs from end iff index is nonnegative; index is -1 exactly on
absence and otherwise is the 0-based offset of the first occurrence. -/
theorem iteratorRange_membership_ops_agree (α : Type) [DecidableEq α]
    (xs : List α) (t : α) :
    (IteratorRange.contains xs t = true ↔
      IteratorRange.find xs t ≠ xs.length) ∧
    (IteratorRange.contains xs t = true ↔ 0 ≤ IteratorRange.index xs t) ∧
    (IteratorRange.index xs t = -1 ↔ t ∉ xs) ∧
    (t ∈ xs → 0 ≤ IteratorRange.index xs t ∧
      xs.get? (IteratorRange.index xs t).toNat = some t ∧
      ∀ j : Nat, (j : Int) < IteratorRange.index xs t →
        xs.get? j ≠ some t) := by
  have hle := IteratorRange.findPos_le_length xs t
  have hiff := IteratorRange.findPos_lt_length_iff xs t
  by_cases hf : IteratorRange.findPos xs t = xs.length
  · have hnm : t ∉ xs := by
      rw [← hiff]
      omega
    refine ⟨?_, ?_, ?_, fun hm => absurd hm hnm⟩
    · simp [IteratorRange.contains, IteratorRange.find, hf]
    · simp [IteratorRange.contains, IteratorRange.index, IteratorRange.find, hf]
    · simp [IteratorRange.index, IteratorRange.find, hf, hnm]
  · have hm : t ∈ xs := hiff.mp (by omega)
    have hidx : IteratorRange.index xs t = (IteratorRange.findPos xs t : Int) := by
      simp [IteratorRange.index, IteratorRange.find, hf]
    refine ⟨?_, ?_, ?_, fun _ => ?_⟩
    · simp [IteratorRange.contains, IteratorRange.find, hf, Ne.symm hf]
    · rw [hidx]
      simp [IteratorRange.contains, IteratorRange.find, Ne.symm hf]
    · rw [hidx]
      constructor
      · intro hc
        omega
      · intro hc
        exact absurd hm hc
    · refine ⟨by rw [hidx]; omega, ?_, ?_⟩
      · rw [hidx]
        simpa using IteratorRange.get?_findPos xs t hm
      · intro j hj
        rw [hidx] at hj
        exact IteratorRange.get?_lt_findPos xs t j (by omega)

/-- Concrete check of the claim-C9 theorem: in [3, 1, 2] the value 1 sits
at offset 1 and nowhere earlier. -/
theorem iteratorRange_membership_ops_agree_witness :
    0 ≤ IteratorRange.index ([3, 1, 2] : List Nat) 1 ∧
    ([3, 1, 2] : List Nat).get?
      (IteratorRange.index ([3, 1, 2] : List Nat) 1).toNat = some 1 ∧
    ∀ j : Nat, (j : Int) < IteratorRange.index ([3, 1, 2] : List Nat) 1 →
      ([3, 1, 2] : List Nat).get? j ≠ some 1 :=
  (iteratorRange_membership_ops_agree Nat [3, 1, 2] 1).2.2.2 (by decide)

/-- Claim C10: reset leaves a Maybe empty (get is null, bool is false), is
idempotent, and the destructor, whose body is exactly reset, establishes
the same emptiness. -/
theorem maybe_reset_empties (α : Type) (m : Maybe α) :
    m.reset.get = none ∧ m.reset.toBool = false ∧ m.reset.reset = m.reset ∧
    m.dtor = m.reset ∧ m.dtor.get = none := by
  obtain ⟨pp⟩ := m
  cases pp <;>
    simp [Maybe.reset, Maybe.get, Maybe.toBool, Maybe.dtor]
